import Mathlib

/-!
Verification development for the upload front-end of `src/functions/upload/index.js`
(CloudFlare-ImgBed). JavaScript strings are modelled as lists of UTF-16 code
units (`JSStr`), since JS `.length`, `.substring`, `.split` and friends all
operate on code units. Byte buffers (`Uint8Array`) are modelled as `List Nat`.
Platform primitives (`JSON.parse`, the backend network calls, `Math.random`)
are passed in as explicit parameters, as they are external collaborators of
the source unit.
-/

namespace ImgBed

/-- JavaScript string: a sequence of UTF-16 code units. -/
abbrev JSStr := List Nat

/-- UTF-16 code units of one Unicode code point (surrogate pair above U+FFFF). -/
def utf16Units (c : Char) : List Nat :=
  if c.toNat < 65536 then [c.toNat]
  else [55296 + (c.toNat - 65536) / 1024, 56320 + (c.toNat - 65536) % 1024]

/-- Convert a Lean string literal to the corresponding JS string (code units). -/
def jsOf (s : String) : JSStr :=
  (s.data.map utf16Units).flatten

/-- JS `String.prototype.split(sep)` for a one-code-unit separator.
    Always returns at least one (possibly empty) part. -/
def jsSplit (sep : Nat) : JSStr → List JSStr
  | [] => [[]]
  | c :: rest =>
    match jsSplit sep rest with
    | [] => [[]]
    | h :: t => if c = sep then [] :: h :: t else (c :: h) :: t

/-- Does the haystack (second argument) start with the needle (first)? -/
def startsWithSeq : JSStr → JSStr → Bool
  | [], _ => true
  | _ :: _, [] => false
  | a :: as, b :: bs => a == b && startsWithSeq as bs

/-- JS `String.prototype.includes(needle)`: substring (contiguous) search. -/
def containsSeq (needle : JSStr) : JSStr → Bool
  | [] => needle.isEmpty
  | c :: rest => startsWithSeq needle (c :: rest) || containsSeq needle rest

/- ------------------------------------------------------------------
   Directory normalization (processFileUpload, lines 150-173 of
   src/functions/upload/index.js):

     const normalizedFolder = uploadFolder
         ? uploadFolder.replace(/^\/+/, '')
             .replace(/\/{2,}/g, '/')
             .replace(/\/$/, '')
         : '';
     ...
     Directory: normalizedFolder === '' ? '' : normalizedFolder + '/',
   ------------------------------------------------------------------ -/

/-- `replace(/^\/+/, '')`: remove the leading run of slashes. -/
def stripLeadingSlashes (l : List Char) : List Char :=
  l.dropWhile (· == '/')

/-- `replace(/\/{2,}/g, '/')`: collapse every run of two or more slashes
    into a single slash (when both lookahead characters are slashes the
    first is dropped, which shortens the run while preserving it). -/
def collapseSlashes : List Char → List Char
  | [] => []
  | [c] => [c]
  | a :: b :: rest =>
    if a = '/' ∧ b = '/' then collapseSlashes (b :: rest)
    else a :: collapseSlashes (b :: rest)

/-- `replace(/\/$/, '')`: remove one trailing slash, if present. -/
def dropTrailingSlash (l : List Char) : List Char :=
  if l.getLast? = some '/' then l.dropLast else l

/-- The full normalization chain applied to a non-empty `uploadFolder`. -/
def normalizeFolder (uploadFolder : List Char) : List Char :=
  dropTrailingSlash (collapseSlashes (stripLeadingSlashes uploadFolder))

/-- The `Directory` metadata field constructed by `processFileUpload`. -/
def directoryOf (uploadFolder : List Char) : List Char :=
  let normalizedFolder := if uploadFolder = [] then [] else normalizeFolder uploadFolder
  if normalizedFolder = [] then [] else normalizedFolder ++ ['/']

/-- Whether a character list contains two consecutive slashes. -/
def hasDoubleSlash : List Char → Bool
  | a :: b :: rest => (a == '/' && b == '/') || hasDoubleSlash (b :: rest)
  | _ => false

/- ------------------------------------------------------------------
   Upload-channel resolution and dispatch (processFileUpload,
   lines 97-120 and 209-253).
   ------------------------------------------------------------------ -/

/-- The `switch (urlParamUploadChannel)` mapping the `uploadChannel` query
    parameter (absent = `none`) to the internal channel tag; every
    unrecognized value falls into the `default` branch. -/
def resolveUploadChannel (urlParamUploadChannel : Option String) : String :=
  match urlParamUploadChannel with
  | some "telegram" => "TelegramNew"
  | some "cfr2" => "CloudflareR2"
  | some "s3" => "S3"
  | some "discord" => "Discord"
  | some "huggingface" => "HuggingFace"
  | some "external" => "External"
  | _ => "TelegramNew"

/-- The if/else dispatch over `uploadChannel` in `processFileUpload`:
    which upload function handles the request (the final `else` branch
    calls `uploadFileToTelegram`). -/
def dispatchFamily (uploadChannel : String) : String :=
  if uploadChannel = "CloudflareR2" then "CloudflareR2"
  else if uploadChannel = "S3" then "S3"
  else if uploadChannel = "Discord" then "Discord"
  else if uploadChannel = "HuggingFace" then "HuggingFace"
  else if uploadChannel = "External" then "External"
  else "TelegramNew"

/- ------------------------------------------------------------------
   Failover controller `tryRetry` (lines 857-913).  The five channel
   upload functions are network collaborators here; they are modelled by
   an environment giving the HTTP status and error text of the n-th
   backend call made inside `tryRetry`.  The first call (index 0) is the
   same-channel retry; the query parameter `serverCompress` is set to
   `'false'` before it, so every call made inside `tryRetry` sees the
   compression flag disabled (recorded as the `Bool` in the trace).
   ------------------------------------------------------------------ -/

/-- Outcome environment: `call n c` is the (status, response text) of the
    n-th backend call inside one `tryRetry` run, dispatched to channel `c`. -/
structure RetryEnv where
  call : Nat → String → Nat × String

/-- Result of `tryRetry`: HTTP status, the `errMessages` object (insertion
    ordered key/value pairs), and the trace of backend calls actually made,
    each with the value of the server-side compression flag at call time. -/
structure RetryResult where
  status : Nat
  body : List (String × String)
  trace : List (String × Bool)

/-- `const channelList = ['CloudflareR2', 'TelegramNew', 'S3', 'HuggingFace', 'Discord']`. -/
def channelList : List String :=
  ["CloudflareR2", "TelegramNew", "S3", "HuggingFace", "Discord"]

/-- The `for` loop of `tryRetry`: walk `remaining`, skip the original channel,
    call each other channel once, stop at the first status-200 response,
    otherwise accumulate `errMessages[channel] = 'Error: ' + channel + text`. -/
def retryLoop (env : RetryEnv) (uploadChannel : String) : Nat →
    List (String × String) → List (String × Bool) → List String → RetryResult
  | _, acc, tr, [] => { status := 500, body := acc, trace := tr }
  | k, acc, tr, c :: rest =>
    if c = uploadChannel then retryLoop env uploadChannel k acc tr rest
    else
      let r := env.call k c
      let tr' := tr ++ [(c, false)]
      if r.1 = 200 then { status := 200, body := [], trace := tr' }
      else retryLoop env uploadChannel (k + 1)
        (acc ++ [(c, "Error: " ++ c ++ r.2)]) tr' rest

/-- `tryRetry(err, context, uploadChannel, ...)`: first retry the same channel
    once (with `serverCompress=false`), then fall back across `channelList`
    skipping the original channel.  When `uploadChannel` is none of the five
    known tags, the same-channel retry if/else chain leaves `retryRes` null
    and both the 200-check and the `_retry` error entry are skipped. -/
def tryRetry (env : RetryEnv) (err : String) (uploadChannel : String) : RetryResult :=
  let acc0 := [(uploadChannel, "Error: " ++ uploadChannel ++ err)]
  if uploadChannel ∈ channelList then
    let r := env.call 0 uploadChannel
    let tr0 := [(uploadChannel, false)]
    if r.1 = 200 then { status := 200, body := [], trace := tr0 }
    else retryLoop env uploadChannel 1
      (acc0 ++ [(uploadChannel ++ "_retry", "Error: " ++ uploadChannel ++ " retry - " ++ r.2)])
      tr0 channelList
  else retryLoop env uploadChannel 0 acc0 [] channelList

/- ------------------------------------------------------------------
   Embedded-metadata extractor `extractAIPrompt` (lines 914-1062).

   `JSON.parse` is a platform primitive; it is modelled as an explicit
   parameter `parseJson : JSStr -> Option JValue` (returning `none` when the
   text fails to parse, which the source catches with its inner try/catch).
   `TextDecoder('utf-8')` is modelled byte-wise: bytes below 0x80 decode to
   themselves and any other byte to U+FFFD; this agrees with a full UTF-8
   decoder on every comparison with a pure-ASCII string (such as the chunk
   type tags and metadata keys), which is all the development relies on.
   ------------------------------------------------------------------ -/

/-- A JavaScript value as produced by `JSON.parse` plus `undefined` (the
    result of a missing property access). Numbers are modelled as integers. -/
inductive JValue where
  | jnull
  | jundefined
  | jbool (b : Bool)
  | jnum (n : Int)
  | jstr (s : JSStr)
  | jarr (elems : List JValue)
  | jobj (fields : List (JSStr × JValue))
deriving Repr, Inhabited

/-- JS truthiness of a value ('' , 0, null, undefined, false are falsy). -/
def truthy : JValue → Bool
  | .jnull => false
  | .jundefined => false
  | .jbool b => b
  | .jnum n => n != 0
  | .jstr s => !s.isEmpty
  | .jarr _ => true
  | .jobj _ => true

/-- The JS `||` operator on values. -/
def jor (a b : JValue) : JValue := if truthy a then a else b

/-- Property access `v[k]` on a non-null value: field lookup on objects,
    `undefined` on every other value (primitives have none of the accessed
    property names). -/
def objGet : JValue → JSStr → JValue
  | .jobj fields, k => ((fields.find? (fun f => f.1 == k)).map Prod.snd).getD .jundefined
  | _, _ => .jundefined

/-- Property access that models the TypeError thrown when the receiver is
    `null` or `undefined`. -/
def getPropE : JValue → JSStr → Except Unit JValue
  | .jnull, _ => .error ()
  | .jundefined, _ => .error ()
  | v, k => .ok (objGet v k)

/-- A string-method call (`.substring`, used on the prompt fields) throws a
    TypeError unless the receiver is a string. -/
def expectStr : JValue → Except Unit JSStr
  | .jstr s => .ok s
  | _ => .error ()

mutual
/-- JS `String(v)` coercion. -/
def jsString : JValue → JSStr
  | .jstr s => s
  | .jnum n => jsOf (toString n)
  | .jbool b => if b then jsOf "true" else jsOf "false"
  | .jnull => jsOf "null"
  | .jundefined => jsOf "undefined"
  | .jobj _ => jsOf "[object Object]"
  | .jarr xs => List.intercalate [44] (jsStringArr xs)

/-- Array elements joined by `,` with null/undefined rendered empty. -/
def jsStringArr : List JValue → List JSStr
  | [] => []
  | .jnull :: rest => [] :: jsStringArr rest
  | .jundefined :: rest => [] :: jsStringArr rest
  | v :: rest => jsString v :: jsStringArr rest
end

/-- The code-unit class of `/[_*[\]()~>#\+\-=|{}.!]/g` in `escapeMd`. -/
def escapeChars : List Nat :=
  [95, 42, 91, 93, 40, 41, 126, 62, 35, 43, 45, 61, 124, 123, 125, 46, 33]

/-- `replace(/[...]/g, '\\$&')`: backslash-escape each listed code unit. -/
def escapeReplace (s : JSStr) : JSStr :=
  (s.map (fun u => if u ∈ escapeChars then [92, u] else [u])).flatten

/-- `const escapeMd = (text) => { if (!text) return 'N/A'; return String(text).replace(...); }`. -/
def escapeMd (text : JValue) : JSStr :=
  if truthy text then escapeReplace (jsString text) else jsOf "N/A"

/-- Decimal rendering of a number interpolated into a template literal. -/
def natToJS (n : Nat) : JSStr := jsOf (toString n)

/-- The provisional provenance record `info` built by the chunk walk. -/
structure PromptInfo where
  prompt : JValue
  uc : JValue
  steps : JValue
  seed : JValue
  sampler : JValue
  chars : List JValue
deriving Repr

/-- `let info = { prompt: '', uc: '', steps: '', seed: '', sampler: '', chars: [] }`. -/
def initInfo : PromptInfo :=
  { prompt := .jstr [], uc := .jstr [], steps := .jstr [], seed := .jstr [],
    sampler := .jstr [], chars := [] }

/-- The two rendered text blocks returned by the extractor. -/
structure AIData where
  caption : JSStr
  fullText : JSStr
  needsSecondMessage : Bool
deriving Repr, DecidableEq

/-- `const headerStr = "💕🌸 *Elin\\'s 咒语卡* 🌸💕\n\n"` (the JS escape
    `\\'` produces a literal backslash followed by an apostrophe). -/
def headerStr : JSStr := jsOf "💕🌸 *Elin\\\x27s 咒语卡* 🌸💕\n\n"

/-- The literal `"...and more characters"` marker pushed into the preview list. -/
def charMarker : JSStr := jsOf "...and more characters"

/-- The rendering tail of `extractAIPrompt` (lines 969-1059): builds the
    full text and the budgeted preview caption from `info`.  Errors model
    the TypeErrors thrown when a prompt-like field is a truthy non-string
    (the outer catch then yields "no data"). -/
def renderAIData (info : PromptInfo) : Except Unit AIData := do
  let samplerStr := escapeMd (jor info.sampler (.jstr (jsOf "N/A")))
  let stepsStr := escapeMd (jor info.steps (.jstr (jsOf "N/A")))
  let seedStr := escapeMd (jor info.seed (.jstr (jsOf "N/A")))
  let footerStr := jsOf "🧪 *Sampler*: " ++ samplerStr ++ jsOf "\n🔢 *Steps*: " ++ stepsStr
      ++ jsOf "  🎲 *Seed*: " ++ seedStr
  let rawPrompt ← expectStr (jor info.prompt (.jstr []))
  let rawUc ← expectStr (jor info.uc (.jstr []))
  let rawChars ← info.chars.mapM expectStr
  -- full text
  let fullText := headerStr
  let fullText := fullText ++ jsOf "✨ *Full Prompt*\n```\n" ++ rawPrompt.take 1500
      ++ jsOf "\n```\n\n"
  let fullText := fullText ++ (rawChars.enum.map (fun ci =>
      jsOf "👤 *Character " ++ natToJS (ci.1 + 1) ++ jsOf "*\n```\n"
        ++ ci.2.take 500 ++ jsOf "\n```\n\n")).flatten
  let fullText := if !rawUc.isEmpty then
      fullText ++ jsOf "❌ *Negative*\n```\n" ++ rawUc.take 800 ++ jsOf "\n```\n\n"
    else fullText
  let fullText := fullText ++ footerStr
  -- preview caption
  let structureCost := headerStr.length + footerStr.length + 80
  let availableChars : Int := 1024 - (structureCost : Int)
  let availableChars := if availableChars < 200 then 200 else availableChars
  let charsTotalLen := rawChars.foldl (fun sum c => sum + c.length) 0
  let totalLen := rawPrompt.length + charsTotalLen + rawUc.length
  let state :=
    if (totalLen : Int) > availableChars then
      let previewUc := if rawUc.length > 50 then rawUc.take 50 ++ jsOf "..." else rawUc
      let previewChars := (rawChars.take 3).map (fun c =>
        if c.length > 80 then c.take 80 ++ jsOf "..." else c)
      let previewChars := if rawChars.length > 3 then previewChars ++ [charMarker]
        else previewChars
      let currentCharsLen := previewChars.foldl (fun sum c => sum + c.length + 30) 0
      let used := previewUc.length + currentCharsLen
      let remaining : Int := availableChars - (used : Int)
      let previewPrompt := if (rawPrompt.length : Int) > remaining ∧ remaining > 0 then
          rawPrompt.take remaining.toNat ++ jsOf "..."
        else rawPrompt
      (previewPrompt, previewUc, previewChars, true)
    else (rawPrompt, rawUc, rawChars, false)
  let previewPrompt := state.1
  let previewUc := state.2.1
  let previewChars := state.2.2.1
  let isTruncated := state.2.2.2
  let caption := headerStr ++ jsOf "✨ *Prompt*\n```\n" ++ previewPrompt ++ jsOf "\n```\n\n"
  let caption := caption ++ (previewChars.enum.map (fun ci =>
      if ci.2 = charMarker then jsOf "👤 *More Characters* omitted in preview.\n\n"
      else jsOf "👤 *Character " ++ natToJS (ci.1 + 1) ++ jsOf "*\n```\n" ++ ci.2
        ++ jsOf "\n```\n\n")).flatten
  let caption := if !previewUc.isEmpty then
      caption ++ jsOf "❌ *Negative*\n```\n" ++ previewUc ++ jsOf "\n```\n\n"
    else caption
  let caption := caption ++ footerStr
  return { caption := caption, fullText := fullText, needsSecondMessage := isTruncated }

/-- `parts = textData.split('\0'); key = parts[0]; value = parts[parts.length-1] || ''`
    (the `|| ''` only replaces an empty last part with the same empty string). -/
def chunkKeyValue (textData : JSStr) : JSStr × JSStr :=
  let parts := jsSplit 0 textData
  (parts.headD [], parts.getLastD [])

/-- Byte-wise model of `new TextDecoder().decode` (see the section comment). -/
def decodeBytes (bytes : List Nat) : JSStr :=
  bytes.map (fun b => if b < 128 then b else 65533)

/-- Big-endian `DataView.getUint32`; the walk's guard keeps reads in bounds. -/
def getUint32 (bytes : List Nat) (off : Nat) : Nat :=
  bytes.getD off 0 * 16777216 + bytes.getD (off + 1) 0 * 65536 +
    bytes.getD (off + 2) 0 * 256 + bytes.getD (off + 3) 0

/-- `Uint8Array.prototype.slice(a, b)` (clamped at the end of the buffer). -/
def sliceList (bytes : List Nat) (a b : Nat) : List Nat := (bytes.take b).drop a

/-- Chunk-walk accumulator: the provisional `info` and the `found` flag. -/
structure ScanState where
  info : PromptInfo
  found : Bool
deriving Repr

/-- The inner `catch (e) { if (value.includes('masterpiece')) { info.prompt =
    value; found = true; } }` fallback of the `Comment` branch. -/
def masterpieceFallback (value : JSStr) (st : ScanState) : ScanState :=
  if containsSeq (jsOf "masterpiece") value then
    { info := { st.info with prompt := .jstr value }, found := true }
  else st

/-- The `key === 'Comment'` branch: parse the value as JSON, read the
    provenance fields, normalize the character-prompt list.  Field
    assignments before a thrown TypeError (null element in the character
    array, or `json` itself null) survive, exactly as in the source. -/
def commentBranch (parseJson : JSStr → Option JValue) (value : JSStr)
    (st : ScanState) : ScanState :=
  match parseJson value with
  | none => masterpieceFallback value st
  | some json =>
    match getPropE json (jsOf "uc") with
    | .error _ => masterpieceFallback value st
    | .ok ucv =>
      let info1 := { st.info with
        uc := jor ucv (jor (objGet json (jsOf "negative_prompt")) (.jstr [])),
        steps := jor (objGet json (jsOf "steps")) (.jstr []),
        seed := jor (objGet json (jsOf "seed")) (.jstr []),
        sampler := jor (objGet json (jsOf "sampler"))
          (jor (objGet json (jsOf "sampler_name")) (.jstr (jsOf "N/A"))) }
      let info1 := if truthy (objGet json (jsOf "prompt")) then
          { info1 with prompt := objGet json (jsOf "prompt") }
        else info1
      let charsV := jor (objGet json (jsOf "characterPrompts"))
        (jor (objGet json (jsOf "character_prompts")) (.jarr []))
      match charsV with
      | .jarr cs =>
        match cs.mapM (fun c => (getPropE c (jsOf "prompt")).map (fun p => jor p c)) with
        | .ok mapped => { info := { info1 with chars := mapped.filter truthy }, found := true }
        | .error _ => masterpieceFallback value { st with info := info1 }
      | _ => { info := info1, found := true }

/-- Handling of one decoded `tEXt`/`iTXt` payload. -/
def processTextChunk (parseJson : JSStr → Option JValue) (textData : JSStr)
    (st : ScanState) : ScanState :=
  let kv := chunkKeyValue textData
  if kv.1 = jsOf "Description" then
    { info := { st.info with prompt := .jstr kv.2 }, found := true }
  else if kv.1 = jsOf "Comment" then
    commentBranch parseJson kv.2 st
  else st

/-- One step plus the rest of the chunk walk, fuelled so that the kernel can
    evaluate it; each iteration advances `offset` by at least 12, so a fuel of
    `uint8.length` can never run out (theorem `scanChunks_eq` below certifies
    that `scanChunks` satisfies exactly the loop's recurrence). -/
def scanChunksAux (parseJson : JSStr → Option JValue) (uint8 : List Nat) :
    Nat → Nat → ScanState → ScanState
  | 0, _, st => st
  | fuel + 1, offset, st =>
    if offset + 8 < uint8.length then
      let length := getUint32 uint8 offset
      let type := decodeBytes (sliceList uint8 (offset + 4) (offset + 8))
      let st' := if type = jsOf "tEXt" ∨ type = jsOf "iTXt" then
          processTextChunk parseJson
            (decodeBytes (sliceList uint8 (offset + 8) (offset + 8 + length))) st
        else st
      scanChunksAux parseJson uint8 fuel (offset + 12 + length) st'
    else st

/-- The chunk walk `while (offset < uint8.length - 8) { ... offset += 12 + length }`
    starting right after the 8-byte signature (the JS guard `offset <
    uint8.length - 8` over numbers is `offset + 8 < uint8.length` over `Nat`). -/
def scanChunks (parseJson : JSStr → Option JValue) (uint8 : List Nat)
    (offset : Nat) (st : ScanState) : ScanState :=
  scanChunksAux parseJson uint8 uint8.length offset st

/-- `extractAIPrompt(file)`: reject non-PNG MIME types before touching the
    buffer, slice the first 262144 bytes, walk the chunks, and render.  A
    TypeError in the rendering stage is absorbed by the outer catch into
    "no data" (`none`); the walk itself cannot throw because its guard keeps
    every `DataView` read in bounds. -/
def extractAIPrompt (parseJson : JSStr → Option JValue) (fileType : String)
    (fileBytes : List Nat) : Option AIData :=
  if fileType ≠ "image/png" then none
  else
    let uint8 := fileBytes.take 262144
    let st := scanChunks parseJson uint8 8 ⟨initInfo, false⟩
    if st.found then
      match renderAIData st.info with
      | .ok d => some d
      | .error _ => none
    else none

/- ------------------------------------------------------------------
   Discord channel upload `uploadFileToDiscord` (lines 640-734), up to and
   including the hard size ceiling and the single backend transfer call.
   The Discord API, moderation and database collaborators are parameters;
   the returned trace records every backend `sendFile` call actually made.
   ------------------------------------------------------------------ -/

/-- One configured Discord channel entry (absent string fields are `""`,
    which is falsy, and `isNitro || false` is modelled as a plain `Bool`). -/
structure DiscordChannelCfg where
  name : String
  botToken : String
  channelId : String
  isNitro : Bool
  proxyUrl : String
deriving Repr, DecidableEq

/-- The `uploadConfig.discord` block: channel list plus load-balance flag. -/
structure DiscordSettings where
  channels : List DiscordChannelCfg
  loadBalanceEnabled : Bool
deriving Repr, DecidableEq

/-- Channel selection: explicit name match first, then random load balancing
    (`randIdx` stands for `Math.floor(Math.random() * channels.length)`),
    else the first configured entry. -/
def selectDiscordChannel (settings : DiscordSettings)
    (specifiedChannelName : Option String) (randIdx : Nat) : Option DiscordChannelCfg :=
  let byName := match specifiedChannelName with
    | some n => settings.channels.find? (fun ch => ch.name == n)
    | none => none
  match byName with
  | some ch => some ch
  | none =>
    if settings.loadBalanceEnabled then settings.channels.get? randIdx
    else settings.channels.head?

/-- The fields of the Discord response that the source reads. -/
structure DiscordFileInfo where
  message_id : String
  file_size : Nat
  url : String
deriving Repr, DecidableEq

/-- `uploadFileToDiscord`: configuration checks, the 25/10 MiB ceiling, then
    the single `discordAPI.sendFile` transfer (`sendFile () = none` models a
    thrown request error or `getFileInfo` returning nothing, both caught and
    turned into a 500; `dbPutOk` is the metadata write).  Returns the HTTP
    status together with the trace of backend transfer calls made. -/
def uploadFileToDiscord (settings : DiscordSettings)
    (specifiedChannelName : Option String) (randIdx : Nat) (fileSizeBytes : Nat)
    (sendFile : Unit → Option DiscordFileInfo) (dbPutOk : Bool) : Nat × List String :=
  if settings.channels.isEmpty then (400, [])
  else
    match selectDiscordChannel settings specifiedChannelName randIdx with
    | none => (400, [])
    | some ch =>
      if ch.botToken = "" ∨ ch.channelId = "" then (400, [])
      else
        let discordMaxSize := if ch.isNitro then 25 * 1024 * 1024 else 10 * 1024 * 1024
        if fileSizeBytes > discordMaxSize then (413, [])
        else
          match sendFile () with
          | none => (500, ["sendFile"])
          | some _ => (if dbPutOk then 200 else 500, ["sendFile"])

/-- What the spec's words describe as the key of a text-chunk payload:
    the first null-delimited field. -/
def firstNullField (p : JSStr) : JSStr := p.takeWhile (fun u => u != 0)

/-- The payload segment strictly after the last null byte (the whole payload
    when it holds no null byte). -/
def afterLastNull (p : JSStr) : JSStr := (p.reverse.takeWhile (fun u => u != 0)).reverse

/-- What the spec's words describe as the value of a text-chunk payload:
    everything after the first null byte, further null bytes included. -/
def afterFirstNull (p : JSStr) : JSStr :=
  if (p.dropWhile (fun u => u != 0)).isEmpty then p
  else (p.dropWhile (fun u => u != 0)).drop 1

/- ==================================================================
   Theorems
   ================================================================== -/

/-- Fuel above the sufficiency bound is irrelevant to the chunk walk. -/
theorem scanChunksAux_succ_eq (parseJson : JSStr → Option JValue) (uint8 : List Nat) :
    ∀ fuel offset st, uint8.length ≤ offset + 12 * fuel →
      scanChunksAux parseJson uint8 (fuel + 1) offset st =
      scanChunksAux parseJson uint8 fuel offset st := by
  intro fuel
  induction fuel with
  | zero =>
    intro offset st h
    simp only [scanChunksAux]
    rw [if_neg (by omega)]
  | succ g ih =>
    intro offset st h
    by_cases hg : offset + 8 < uint8.length
    · simp only [scanChunksAux, if_pos hg]
      exact ih (offset + 12 + getUint32 uint8 offset) _ (by omega)
    · simp only [scanChunksAux, if_neg hg]

/-- `scanChunks` satisfies exactly the recurrence of the source's `while`
    loop: this certifies that the fuel in `scanChunksAux` never runs out. -/
theorem scanChunks_eq (parseJson : JSStr → Option JValue) (uint8 : List Nat)
    (offset : Nat) (st : ScanState) :
    scanChunks parseJson uint8 offset st =
      if offset + 8 < uint8.length then
        scanChunks parseJson uint8 (offset + 12 + getUint32 uint8 offset)
          (if decodeBytes (sliceList uint8 (offset + 4) (offset + 8)) = jsOf "tEXt" ∨
              decodeBytes (sliceList uint8 (offset + 4) (offset + 8)) = jsOf "iTXt" then
            processTextChunk parseJson
              (decodeBytes (sliceList uint8 (offset + 8)
                (offset + 8 + getUint32 uint8 offset))) st
          else st)
      else st := by
  by_cases hg : offset + 8 < uint8.length
  · rw [if_pos hg]
    unfold scanChunks
    obtain ⟨g, hgl⟩ : ∃ g, uint8.length = g + 1 := ⟨uint8.length - 1, by omega⟩
    rw [hgl]
    conv_lhs => simp only [scanChunksAux]
    rw [if_pos hg]
    exact (scanChunksAux_succ_eq parseJson uint8 g _ _ (by omega)).symm
  · rw [if_neg hg]
    unfold scanChunks
    cases hgl : uint8.length with
    | zero => simp [scanChunksAux]
    | succ g => simp only [scanChunksAux]; rw [if_neg hg]

/- ----------------------- C5: Directory normalization ----------------------- -/

theorem stripLeadingSlashes_head? (l : List Char) :
    (stripLeadingSlashes l).head? ≠ some '/' := by
  induction l with
  | nil => simp [stripLeadingSlashes]
  | cons c rest ih =>
    by_cases hc : c = '/'
    · simpa [stripLeadingSlashes, List.dropWhile_cons, hc] using ih
    · simp [stripLeadingSlashes, List.dropWhile_cons, hc]

theorem collapseSlashes_head? : ∀ l : List Char, (collapseSlashes l).head? = l.head?
  | [] => by simp [collapseSlashes]
  | [c] => by simp [collapseSlashes]
  | a :: b :: rest => by
    by_cases h : a = '/' ∧ b = '/'
    · simp only [collapseSlashes, if_pos h]
      rw [collapseSlashes_head? (b :: rest)]
      simp [h.1, h.2]
    · simp only [collapseSlashes, if_neg h]
      simp

theorem hasDoubleSlash_cons_cons (a b : Char) (t : List Char) :
    hasDoubleSlash (a :: b :: t) = ((a == '/' && b == '/') || hasDoubleSlash (b :: t)) :=
  rfl

theorem collapseSlashes_noDouble : ∀ l : List Char, hasDoubleSlash (collapseSlashes l) = false
  | [] => rfl
  | [_] => rfl
  | a :: b :: rest => by
    by_cases h : a = '/' ∧ b = '/'
    · simp only [collapseSlashes, if_pos h]
      exact collapseSlashes_noDouble (b :: rest)
    · simp only [collapseSlashes, if_neg h]
      have ih := collapseSlashes_noDouble (b :: rest)
      have hh := collapseSlashes_head? (b :: rest)
      cases hcb : collapseSlashes (b :: rest) with
      | nil => rfl
      | cons x t =>
        rw [hcb] at ih hh
        simp only [List.head?_cons] at hh
        have hx : x = b := by injection hh
        subst hx
        rw [hasDoubleSlash_cons_cons, ih, Bool.or_false]
        rcases not_and_or.mp h with ha | hb
        · simp [beq_iff_eq, ha]
        · simp [beq_iff_eq, hb]

theorem hasDoubleSlash_dropLast : ∀ l : List Char, hasDoubleSlash l = false →
    hasDoubleSlash l.dropLast = false
  | [] => fun _ => rfl
  | [_] => fun _ => rfl
  | a :: b :: t => fun h => by
    rw [hasDoubleSlash_cons_cons, Bool.or_eq_false_iff] at h
    cases t with
    | nil => rfl
    | cons c t' =>
      have ih := hasDoubleSlash_dropLast (b :: c :: t') h.2
      rw [show (a :: b :: c :: t').dropLast = a :: b :: (c :: t').dropLast from rfl]
      rw [show (b :: c :: t').dropLast = b :: (c :: t').dropLast from rfl] at ih
      rw [hasDoubleSlash_cons_cons, ih, h.1]
      rfl

theorem hasDoubleSlash_cons_of (z : Char) (l : List Char)
    (h : hasDoubleSlash l = true) : hasDoubleSlash (z :: l) = true := by
  cases l with
  | nil => simp [hasDoubleSlash] at h
  | cons x t => rw [hasDoubleSlash_cons_cons, h, Bool.or_true]

theorem hasDoubleSlash_append_of (zs t : List Char) (h : hasDoubleSlash t = true) :
    hasDoubleSlash (zs ++ t) = true := by
  induction zs with
  | nil => simpa
  | cons z zs ih => rw [List.cons_append]; exact hasDoubleSlash_cons_of z _ ih

theorem dropTrailingSlash_getLast? (l : List Char) (h : hasDoubleSlash l = false) :
    (dropTrailingSlash l).getLast? ≠ some '/' := by
  rcases List.eq_nil_or_concat l with rfl | ⟨ys, a, rfl⟩
  · simp [dropTrailingSlash]
  · rw [List.concat_eq_append] at h ⊢
    by_cases ha : a = '/'
    · subst ha
      unfold dropTrailingSlash
      rw [if_pos (by simp [List.getLast?_concat]), List.dropLast_concat]
      rcases List.eq_nil_or_concat ys with rfl | ⟨zs, b, rfl⟩
      · simp
      · rw [List.concat_eq_append] at h ⊢
        rw [List.getLast?_concat]
        intro hb
        have hb' : b = '/' := by injection hb
        subst hb'
        rw [List.append_assoc] at h
        have := hasDoubleSlash_append_of zs ['/', '/'] (by rfl)
        rw [show ['/'] ++ ['/'] = (['/', '/'] : List Char) from rfl] at h
        rw [this] at h
        simp at h
    · unfold dropTrailingSlash
      rw [if_neg (by simp [List.getLast?_concat, ha]), List.getLast?_concat]
      simp [ha]

theorem dropLast_head?_cases (l : List Char) :
    l.dropLast.head? = none ∨ l.dropLast.head? = l.head? := by
  cases l with
  | nil => exact Or.inl rfl
  | cons a t =>
    cases t with
    | nil => exact Or.inl rfl
    | cons b t' => exact Or.inr rfl

theorem dropTrailingSlash_head? (l : List Char) :
    (dropTrailingSlash l).head? = none ∨ (dropTrailingSlash l).head? = l.head? := by
  unfold dropTrailingSlash
  split
  · exact dropLast_head?_cases l
  · exact Or.inr rfl

theorem normalizeFolder_head? (s : List Char) : (normalizeFolder s).head? ≠ some '/' := by
  unfold normalizeFolder
  rcases dropTrailingSlash_head? (collapseSlashes (stripLeadingSlashes s)) with h | h
  · rw [h]; simp
  · rw [h, collapseSlashes_head?]; exact stripLeadingSlashes_head? s

theorem normalizeFolder_noDouble (s : List Char) :
    hasDoubleSlash (normalizeFolder s) = false := by
  unfold normalizeFolder dropTrailingSlash
  split
  · exact hasDoubleSlash_dropLast _ (collapseSlashes_noDouble _)
  · exact collapseSlashes_noDouble _

theorem normalizeFolder_getLast? (s : List Char) :
    (normalizeFolder s).getLast? ≠ some '/' :=
  dropTrailingSlash_getLast? _ (collapseSlashes_noDouble _)

theorem hasDoubleSlash_concat_slash : ∀ n : List Char, hasDoubleSlash n = false →
    n.getLast? ≠ some '/' → hasDoubleSlash (n ++ ['/']) = false
  | [] => fun _ _ => rfl
  | [a] => fun _ hl => by
    have ha : a ≠ '/' := by simpa using hl
    simp [hasDoubleSlash, beq_iff_eq, ha]
  | a :: b :: t => fun h hl => by
    rw [hasDoubleSlash_cons_cons, Bool.or_eq_false_iff] at h
    rw [List.cons_append, List.cons_append, hasDoubleSlash_cons_cons]
    rw [← List.cons_append]
    rw [hasDoubleSlash_concat_slash (b :: t) h.2
      (by rwa [List.getLast?_cons_cons] at hl)]
    rw [h.1]
    rfl

/-- C5 counterexample: for upload folder `"a"` the constructed `Directory`
    field is `"a/"`, which ends in a slash — the claim that the Directory
    field has no trailing slash is false on the code. -/
theorem c5_cex_trailing_slash :
    directoryOf ['a'] = ['a', '/'] ∧ (directoryOf ['a']).getLast? = some '/' := by
  decide

/-- C5 (amended): for every upload folder string, the `Directory` metadata
    field has no leading slash and no consecutive duplicate slashes, and it
    is either empty or ends in exactly one trailing slash (the separator the
    code appends to the normalized folder). -/
theorem c5_directory_normalized (s : List Char) :
    (directoryOf s).head? ≠ some '/' ∧
      hasDoubleSlash (directoryOf s) = false ∧
      (directoryOf s = [] ∨
        ((directoryOf s).getLast? = some '/' ∧
          (directoryOf s).dropLast.getLast? ≠ some '/')) := by
  unfold directoryOf
  by_cases hs : s = []
  · subst hs
    exact ⟨by simp, rfl, Or.inl rfl⟩
  · simp only [if_neg hs]
    by_cases hne : normalizeFolder s = []
    · rw [if_pos hne]
      exact ⟨by simp, rfl, Or.inl rfl⟩
    · rw [if_neg hne]
      refine ⟨?_, ?_, Or.inr ⟨?_, ?_⟩⟩
      · cases hcn : normalizeFolder s with
        | nil => exact absurd hcn hne
        | cons x t =>
          simp only [List.cons_append, List.head?_cons]
          have h1 := normalizeFolder_head? s
          rw [hcn] at h1
          simpa using h1
      · exact hasDoubleSlash_concat_slash _ (normalizeFolder_noDouble s)
          (normalizeFolder_getLast? s)
      · rw [List.getLast?_concat]
      · rw [List.dropLast_concat]; exact normalizeFolder_getLast? s

/- ----------------------- C9: default channel dispatch ----------------------- -/

/-- C9: for every request whose `uploadChannel` query parameter is absent or
    not one of the six recognized values, the orchestrator resolves the
    channel tag to `TelegramNew` and the dispatch if/else chain hands the
    upload to the Telegram upload function instead of rejecting it. -/
theorem c9_unrecognized_param_goes_to_telegram (p : Option String)
    (h : ∀ s, p = some s →
      s ∉ ["telegram", "cfr2", "s3", "discord", "huggingface", "external"]) :
    resolveUploadChannel p = "TelegramNew" ∧
      dispatchFamily (resolveUploadChannel p) = "TelegramNew" := by
  have hr : resolveUploadChannel p = "TelegramNew" := by
    match p with
    | none => rfl
    | some s =>
      have hs := h s rfl
      simp only [List.mem_cons, List.not_mem_nil, or_false, not_or] at hs
      obtain ⟨h1, h2, h3, h4, h5, h6⟩ := hs
      simp only [resolveUploadChannel]
      split <;> simp_all
  refine ⟨hr, ?_⟩
  rw [hr]
  decide

/-- C9 witness at the unrecognized parameter value `webdav`. -/
theorem c9_witness :
    resolveUploadChannel (some "webdav") = "TelegramNew" ∧
      dispatchFamily (resolveUploadChannel (some "webdav")) = "TelegramNew" :=
  c9_unrecognized_param_goes_to_telegram (some "webdav")
    (by intro s hs; injection hs with hs; subst hs; decide)

/- ----------------------- C6: Discord size ceiling ----------------------- -/

/-- C6: when the selected Discord channel is properly configured and the file
    exceeds its ceiling (10 MiB without the Nitro flag, 25 MiB with it), the
    upload function returns status 413 immediately and the backend transfer
    trace is empty — no `sendFile` call is attempted. -/
theorem c6_discord_size_ceiling (settings : DiscordSettings)
    (specifiedChannelName : Option String) (randIdx : Nat) (fileSizeBytes : Nat)
    (sendFile : Unit → Option DiscordFileInfo) (dbPutOk : Bool)
    (ch : DiscordChannelCfg)
    (hsel : selectDiscordChannel settings specifiedChannelName randIdx = some ch)
    (hbot : ch.botToken ≠ "") (hcid : ch.channelId ≠ "")
    (hsize : fileSizeBytes > (if ch.isNitro then 25 * 1024 * 1024 else 10 * 1024 * 1024)) :
    uploadFileToDiscord settings specifiedChannelName randIdx fileSizeBytes
      sendFile dbPutOk = (413, []) := by
  have hne : settings.channels.isEmpty = false := by
    cases hc : settings.channels with
    | nil =>
      rw [selectDiscordChannel.eq_def] at hsel
      cases specifiedChannelName <;> simp [hc] at hsel
    | cons _ _ => rfl
  unfold uploadFileToDiscord
  rw [hne]
  simp only [Bool.false_eq_true, if_false, hsel]
  rw [if_neg (by push_neg; exact ⟨hbot, hcid⟩), if_pos hsize]

/-- C6 witness: a 30 MiB file on a single configured non-Nitro channel. -/
theorem c6_witness :
    uploadFileToDiscord
      ⟨[⟨"main", "tok", "chan", false, ""⟩], false⟩ none 0 31457280
      (fun _ => none) true = (413, []) :=
  c6_discord_size_ceiling _ none 0 31457280 (fun _ => none) true
    ⟨"main", "tok", "chan", false, ""⟩ (by decide) (by decide) (by decide) (by decide)

/- ----------------------- C2/C3/C7: failover controller ----------------------- -/

theorem errText_ne_empty (pre s : String) (hp : pre.length ≠ 0) : pre ++ s ≠ "" := by
  intro h
  have hlen := congrArg String.length h
  rw [String.length_append] at hlen
  have h0 : ("" : String).length = 0 := rfl
  rw [h0] at hlen
  omega

/-- When every backend call fails, the loop visits every remaining channel
    (skipping the original), accumulates one labeled non-empty error per
    channel, and ends with status 500. -/
theorem retryLoop_all_fail (env : RetryEnv) (orig : String)
    (hfail : ∀ k c, (env.call k c).1 ≠ 200) :
    ∀ rem k acc tr, (∀ p ∈ acc, p.2 ≠ "") →
      (retryLoop env orig k acc tr rem).status = 500 ∧
      (retryLoop env orig k acc tr rem).body.map Prod.fst
        = acc.map Prod.fst ++ rem.filter (fun c => c ≠ orig) ∧
      (retryLoop env orig k acc tr rem).trace
        = tr ++ (rem.filter (fun c => c ≠ orig)).map (fun c => (c, false)) ∧
      (∀ p ∈ (retryLoop env orig k acc tr rem).body, p.2 ≠ "") := by
  intro rem
  induction rem with
  | nil =>
    intro k acc tr hacc
    exact ⟨rfl, by simp [retryLoop], by simp [retryLoop], by simpa [retryLoop] using hacc⟩
  | cons c rest ih =>
    intro k acc tr hacc
    by_cases hc : c = orig
    · simp only [retryLoop, if_pos hc]
      have hfilter : (c :: rest).filter (fun c => c ≠ orig)
          = rest.filter (fun c => c ≠ orig) := by
        simp [List.filter_cons, hc]
      rw [hfilter]
      exact ih k acc tr hacc
    · simp only [retryLoop, if_neg hc]
      rw [if_neg (hfail k c)]
      have hacc' : ∀ p ∈ acc ++ [(c, "Error: " ++ c ++ (env.call k c).2)], p.2 ≠ "" := by
        intro p hp
        rcases List.mem_append.mp hp with hp | hp
        · exact hacc p hp
        · simp only [List.mem_singleton] at hp
          subst hp
          exact errText_ne_empty ("Error: " ++ c) (env.call k c).2
            (by rw [String.length_append]
                have h7 : ("Error: " : String).length = 7 := rfl
                omega)
      obtain ⟨s1, s2, s3, s4⟩ := ih (k + 1) _ (tr ++ [(c, false)]) hacc'
      have hfilter : (c :: rest).filter (fun c => c ≠ orig)
          = c :: rest.filter (fun c => c ≠ orig) := by
        simp [List.filter_cons, hc]
      refine ⟨s1, ?_, ?_, s4⟩
      · rw [s2, hfilter]; simp
      · rw [s3, hfilter]; simp

/-- C2 counterexample: with all five backends failing, five families are
    attempted but the aggregate error object carries six keys — the extra
    `TelegramNew_retry` key is not the name of any attempted family — so the
    object does not contain exactly one key per attempted family (N keys for
    N families). -/
theorem c2_cex_extra_retry_key :
    (tryRetry ⟨fun _ _ => (500, " boom")⟩ " x" "TelegramNew").body.length = 6 ∧
    ((tryRetry ⟨fun _ _ => (500, " boom")⟩ " x" "TelegramNew").trace.map
      Prod.fst).dedup.length = 5 ∧
    "TelegramNew_retry" ∈
      ((tryRetry ⟨fun _ _ => (500, " boom")⟩ " x" "TelegramNew").body.map Prod.fst) ∧
    "TelegramNew_retry" ∉
      ((tryRetry ⟨fun _ _ => (500, " boom")⟩ " x" "TelegramNew").trace.map Prod.fst) := by
  decide

/-- C2 (amended): when the initially chosen family and every fallback fail,
    the returned aggregate failure has HTTP status 500 and its body holds
    one key per attempted family plus one extra `<family>_retry` key for the
    same-family retry — N+1 keys for the N attempted families — each mapped
    to a non-empty error text. -/
theorem c2_exhausted_aggregate (env : RetryEnv) (err orig : String)
    (horig : orig ∈ channelList) (hfail : ∀ k c, (env.call k c).1 ≠ 200) :
    (tryRetry env err orig).status = 500 ∧
    (tryRetry env err orig).body.map Prod.fst
      = orig :: (orig ++ "_retry") :: channelList.filter (fun c => c ≠ orig) ∧
    (∀ p ∈ (tryRetry env err orig).body, p.2 ≠ "") ∧
    (tryRetry env err orig).body.length
      = ((tryRetry env err orig).trace.map Prod.fst).dedup.length + 1 := by
  unfold tryRetry
  rw [if_pos horig, if_neg (hfail 0 orig)]
  have hacc : ∀ p ∈ [(orig, "Error: " ++ orig ++ err)] ++
      [(orig ++ "_retry", "Error: " ++ orig ++ " retry - " ++ (env.call 0 orig).2)],
      p.2 ≠ "" := by
    intro p hp
    rcases List.mem_append.mp hp with hp | hp <;> simp only [List.mem_singleton] at hp <;>
      subst hp <;>
      exact errText_ne_empty _ _
        (by simp only [String.length_append]
            have h7 : ("Error: " : String).length = 7 := rfl
            omega)
  obtain ⟨s1, s2, s3, s4⟩ := retryLoop_all_fail env orig hfail channelList 1 _
    [(orig, false)] hacc
  refine ⟨s1, ?_, s4, ?_⟩
  · rw [s2]; simp
  · have htr : (retryLoop env orig 1
        ([(orig, "Error: " ++ orig ++ err)] ++
          [(orig ++ "_retry", "Error: " ++ orig ++ " retry - " ++ (env.call 0 orig).2)])
        [(orig, false)] channelList).trace.map Prod.fst
        = orig :: channelList.filter (fun c => c ≠ orig) := by
      rw [s3]
      simp only [List.map_append, List.map_map]
      rw [show (Prod.fst ∘ fun c : String => (c, false)) = id from rfl, List.map_id]
      rfl
    rw [htr]
    have hnodup : (orig :: channelList.filter (fun c => c ≠ orig)).Nodup := by
      refine List.nodup_cons.mpr ⟨?_, ?_⟩
      · intro hmem
        have := (List.mem_filter.mp hmem).2
        simp at this
      · exact List.Nodup.filter _ (by decide)
    rw [List.dedup_eq_self.mpr hnodup]
    have hb := congrArg List.length s2
    simp only [List.length_map, List.length_append, List.length_cons,
      List.length_nil] at hb ⊢
    omega

/-- C2 witness: the amended statement evaluated on an environment where
    every backend call fails, starting from the S3 family. -/
theorem c2_witness :
    (tryRetry ⟨fun _ _ => (500, " nope")⟩ " y" "S3").status = 500 ∧
    (tryRetry ⟨fun _ _ => (500, " nope")⟩ " y" "S3").body.map Prod.fst
      = "S3" :: ("S3" ++ "_retry") :: channelList.filter (fun c => c ≠ "S3") ∧
    (∀ p ∈ (tryRetry ⟨fun _ _ => (500, " nope")⟩ " y" "S3").body, p.2 ≠ "") ∧
    (tryRetry ⟨fun _ _ => (500, " nope")⟩ " y" "S3").body.length
      = ((tryRetry ⟨fun _ _ => (500, " nope")⟩ " y" "S3").trace.map
          Prod.fst).dedup.length + 1 :=
  c2_exhausted_aggregate ⟨fun _ _ => (500, " nope")⟩ " y" "S3" (by decide)
    (fun _ _ => fun h => absurd h (by decide : ¬(500 = 200)))

/-- The loop's trace extends `tr` by a prefix of the remaining channels
    (the original skipped), each flagged with compression disabled. -/
theorem retryLoop_trace_take (env : RetryEnv) (orig : String) :
    ∀ rem k acc tr, ∃ n,
      (retryLoop env orig k acc tr rem).trace
        = tr ++ ((rem.filter (fun c => c ≠ orig)).take n).map (fun c => (c, false)) := by
  intro rem
  induction rem with
  | nil => intro k acc tr; exact ⟨0, by simp [retryLoop]⟩
  | cons c rest ih =>
    intro k acc tr
    by_cases hc : c = orig
    · obtain ⟨n, hn⟩ := ih k acc tr
      refine ⟨n, ?_⟩
      have hf : (c :: rest).filter (fun c => c ≠ orig) = rest.filter (fun c => c ≠ orig) := by
        simp [List.filter_cons, hc]
      simp only [retryLoop, if_pos hc, hf]
      exact hn
    · have hf : (c :: rest).filter (fun c => c ≠ orig)
          = c :: rest.filter (fun c => c ≠ orig) := by
        simp [List.filter_cons, hc]
      by_cases h200 : (env.call k c).1 = 200
      · refine ⟨1, ?_⟩
        simp only [retryLoop, if_neg hc]
        rw [if_pos h200, hf]
        simp
      · simp only [retryLoop, if_neg hc]
        rw [if_neg h200]
        obtain ⟨n, hn⟩ := ih (k + 1)
          (acc ++ [(c, "Error: " ++ c ++ (env.call k c).2)]) (tr ++ [(c, false)])
        refine ⟨n + 1, ?_⟩
        rw [hn, hf]
        simp [List.take_succ_cons]

/-- C3: with auto-retry, the controller first retries the originally chosen
    family once with the compression flag disabled; only if that retry fails
    does it walk the fixed order (CloudflareR2, TelegramNew, S3, HuggingFace,
    Discord) skipping the original family, visiting a prefix of the remaining
    families once each; counting the original attempt, no family is attempted
    more than twice and no family outside the fixed order is ever attempted. -/
theorem c3_failover_policy (env : RetryEnv) (err orig : String) (origCompress : Bool)
    (horig : orig ∈ channelList) :
    (tryRetry env err orig).trace.head? = some (orig, false) ∧
    ((env.call 0 orig).1 = 200 → (tryRetry env err orig).trace = [(orig, false)]) ∧
    (∃ n, (tryRetry env err orig).trace.tail.map Prod.fst
        = (channelList.filter (fun c => c ≠ orig)).take n) ∧
    (((orig, origCompress) :: (tryRetry env err orig).trace).map Prod.fst).count orig ≤ 2 ∧
    (∀ c, c ≠ orig →
      (((orig, origCompress) :: (tryRetry env err orig).trace).map Prod.fst).count c ≤ 1) ∧
    (∀ a ∈ (orig, origCompress) :: (tryRetry env err orig).trace, a.1 ∈ channelList) := by
  have hnodup : channelList.Nodup := by decide
  unfold tryRetry
  rw [if_pos horig]
  by_cases h0 : (env.call 0 orig).1 = 200
  · rw [if_pos h0]
    refine ⟨rfl, fun _ => rfl, ⟨0, by simp⟩, ?_, ?_, ?_⟩
    · simp [List.count_cons]
    · intro c hc
      simp [List.count_cons, hc]
    · intro a ha
      rcases List.mem_cons.mp ha with rfl | ha
      · exact horig
      · have := List.mem_singleton.mp ha
        subst this
        exact horig
  · rw [if_neg h0]
    obtain ⟨n, hn⟩ := retryLoop_trace_take env orig channelList 1
      ([(orig, "Error: " ++ orig ++ err)] ++
        [(orig ++ "_retry", "Error: " ++ orig ++ " retry - " ++ (env.call 0 orig).2)])
      [(orig, false)]
    rw [hn]
    have hmapfst : ∀ l : List String, (l.map (fun c => (c, false))).map Prod.fst = l := by
      intro l
      rw [List.map_map, show (Prod.fst ∘ fun c : String => (c, false)) = id from rfl,
        List.map_id]
    have htk_ne : ∀ x ∈ (channelList.filter (fun c => c ≠ orig)).take n, x ≠ orig := by
      intro x hx
      have := (List.mem_filter.mp (List.take_subset n _ hx)).2
      simpa using this
    have htk_mem : ∀ x ∈ (channelList.filter (fun c => c ≠ orig)).take n,
        x ∈ channelList := by
      intro x hx
      exact (List.mem_filter.mp (List.take_subset n _ hx)).1
    refine ⟨rfl, fun h => absurd h h0, ⟨n, ?_⟩, ?_, ?_, ?_⟩
    · simp only [List.singleton_append, List.tail_cons]
      exact hmapfst _
    · simp only [List.singleton_append, List.map_cons, List.count_cons_self]
      rw [hmapfst]
      have : ((channelList.filter (fun c => c ≠ orig)).take n).count orig = 0 :=
        List.count_eq_zero.mpr (fun hmem => htk_ne orig hmem rfl)
      omega
    · intro c hc
      simp only [List.singleton_append, List.map_cons]
      rw [hmapfst]
      rw [List.count_cons_of_ne hc, List.count_cons_of_ne hc]
      have hsub : ((channelList.filter (fun c => c ≠ orig)).take n).Sublist channelList :=
        (List.take_sublist n _).trans (List.filter_sublist _)
      have hle : ((channelList.filter (fun c => c ≠ orig)).take n).count c
          ≤ channelList.count c := hsub.count_le c
      have hone : channelList.count c ≤ 1 := List.nodup_iff_count_le_one.mp hnodup c
      omega
    · intro a ha
      rcases List.mem_cons.mp ha with rfl | ha
      · exact horig
      · rcases List.mem_cons.mp (by simpa using ha) with rfl | ha'
        · exact horig
        · obtain ⟨x, hx, rfl⟩ := List.mem_map.mp (List.take_subset _ _ ha')
          exact (List.mem_filter.mp hx).1

/-- C3 witness: first conjunct of the policy at a concrete all-fail
    environment starting from the S3 family. -/
theorem c3_witness :
    (tryRetry ⟨fun _ _ => (500, " z")⟩ " e" "S3").trace.head? = some ("S3", false) :=
  (c3_failover_policy ⟨fun _ _ => (500, " z")⟩ " e" "S3" true (by decide)).1

/-- Inside the loop backend-call indices align with trace positions
    (`k = tr.length`): every trace entry before the final one records a
    failed call, and a 200 result means the final entry's call succeeded. -/
theorem retryLoop_first_success (env : RetryEnv) (orig : String) :
    ∀ rem k acc tr, k = tr.length →
      (∀ i c b, tr.length ≤ i →
        (retryLoop env orig k acc tr rem).trace[i]? = some (c, b) →
        i + 1 < (retryLoop env orig k acc tr rem).trace.length →
        (env.call i c).1 ≠ 200) ∧
      ((retryLoop env orig k acc tr rem).status = 200 →
        tr.length < (retryLoop env orig k acc tr rem).trace.length ∧
        ∃ c b, (retryLoop env orig k acc tr rem).trace.getLast? = some (c, b) ∧
          (env.call ((retryLoop env orig k acc tr rem).trace.length - 1) c).1 = 200) := by
  intro rem
  induction rem with
  | nil =>
    intro k acc tr hk
    constructor
    · intro i c b hi hget _
      rw [show (retryLoop env orig k acc tr []).trace = tr from rfl] at hget
      rw [List.getElem?_eq_none hi] at hget
      exact absurd hget (by simp)
    · intro hs
      exact absurd hs (by simp [retryLoop])
  | cons c rest ih =>
    intro k acc tr hk
    by_cases hc : c = orig
    · simpa only [retryLoop, if_pos hc] using ih k acc tr hk
    · by_cases h200 : (env.call k c).1 = 200
      · simp only [retryLoop, if_neg hc, if_pos h200]
        constructor
        · intro i c' b' hi hget hlt
          simp only [List.length_append, List.length_cons, List.length_nil] at hlt
          omega
        · intro _
          refine ⟨by simp, c, false, ?_, ?_⟩
          · rw [List.getLast?_concat]
          · simp only [List.length_append, List.length_cons, List.length_nil]
            rw [show tr.length + 1 - 1 = tr.length from rfl, ← hk]
            exact h200
      · simp only [retryLoop, if_neg hc]
        rw [if_neg h200]
        have hk' : k + 1 = (tr ++ [(c, false)]).length := by
          rw [List.length_append, List.length_cons, List.length_nil, hk]
        obtain ⟨p1, p2⟩ := ih (k + 1)
          (acc ++ [(c, "Error: " ++ c ++ (env.call k c).2)]) (tr ++ [(c, false)]) hk'
        constructor
        · intro i c' b' hi hget hlt
          by_cases hi' : (tr ++ [(c, false)]).length ≤ i
          · exact p1 i c' b' hi' hget hlt
          · have hieq : i = tr.length := by
              rw [List.length_append, List.length_cons, List.length_nil] at hi'
              omega
            subst hieq
            obtain ⟨m, hm⟩ := retryLoop_trace_take env orig rest (k + 1)
              (acc ++ [(c, "Error: " ++ c ++ (env.call k c).2)]) (tr ++ [(c, false)])
            rw [hm, List.append_assoc] at hget
            rw [List.getElem?_append_right (Nat.le_refl _)] at hget
            simp only [Nat.sub_self, List.singleton_append, List.getElem?_cons_zero] at hget
            have hc' : c' = c := by
              have := congrArg (fun o => Option.map Prod.fst o) hget
              simpa using this.symm
            subst hc'
            rw [← hk]
            exact h200
        · intro hs
          obtain ⟨hlen, hrest⟩ := p2 hs
          refine ⟨?_, hrest⟩
          rw [List.length_append, List.length_cons, List.length_nil] at hlen
          omega

/-- C7: the failover controller stops at the first success — every backend
    call recorded before the final one in the trace returned a non-200
    outcome, and when the controller returns success the final recorded call
    is the one that succeeded (no backend call follows a success). -/
theorem c7_first_success_stops (env : RetryEnv) (err orig : String) :
    (∀ i c b, (tryRetry env err orig).trace[i]? = some (c, b) →
      i + 1 < (tryRetry env err orig).trace.length → (env.call i c).1 ≠ 200) ∧
    ((tryRetry env err orig).status = 200 →
      ∃ c b, (tryRetry env err orig).trace.getLast? = some (c, b) ∧
        (env.call ((tryRetry env err orig).trace.length - 1) c).1 = 200) := by
  unfold tryRetry
  by_cases horig : orig ∈ channelList
  · rw [if_pos horig]
    by_cases h0 : (env.call 0 orig).1 = 200
    · rw [if_pos h0]
      constructor
      · intro i c b _ hlt
        simp only [List.length_cons, List.length_nil] at hlt
        omega
      · intro _
        exact ⟨orig, false, rfl, h0⟩
    · rw [if_neg h0]
      obtain ⟨p1, p2⟩ := retryLoop_first_success env orig channelList 1
        ([(orig, "Error: " ++ orig ++ err)] ++
          [(orig ++ "_retry", "Error: " ++ orig ++ " retry - " ++ (env.call 0 orig).2)])
        [(orig, false)] (by simp)
      constructor
      · intro i c b hget hlt
        by_cases hi : 1 ≤ i
        · exact p1 i c b (by simpa using hi) hget hlt
        · have hi0 : i = 0 := by omega
          subst hi0
          obtain ⟨m, hm⟩ := retryLoop_trace_take env orig channelList 1
            ([(orig, "Error: " ++ orig ++ err)] ++
              [(orig ++ "_retry", "Error: " ++ orig ++ " retry - " ++ (env.call 0 orig).2)])
            [(orig, false)]
          rw [hm] at hget
          simp only [List.singleton_append, List.getElem?_cons_zero] at hget
          have hc' : c = orig := by
            have := congrArg (fun o => Option.map Prod.fst o) hget
            simpa using this.symm
          subst hc'
          exact h0
      · intro hs
        exact (p2 hs).2
  · rw [if_neg horig]
    obtain ⟨p1, p2⟩ := retryLoop_first_success env orig channelList 0
      [(orig, "Error: " ++ orig ++ err)] [] (by simp)
    exact ⟨fun i c b hget hlt => p1 i c b (by simp) hget hlt, fun hs => (p2 hs).2⟩

/-- C7 witness: in an environment where the first call fails and every later
    call succeeds, the theorem yields that the first recorded call (the
    same-family retry on TelegramNew) did not return 200. -/
theorem c7_witness :
    ((⟨fun k _ => if k = 0 then (500, " a") else (200, " ok")⟩ : RetryEnv).call 0
      "TelegramNew").1 ≠ 200 :=
  (c7_first_success_stops ⟨fun k _ => if k = 0 then (500, " a") else (200, " ok")⟩
      " e" "TelegramNew").1 0 "TelegramNew" false (by decide) (by decide)

/- ----------------------- C4: text-chunk key/value split ----------------------- -/

theorem jsSplit_ne_nil (sep : Nat) : ∀ l : JSStr, jsSplit sep l ≠ []
  | [] => by simp [jsSplit]
  | c :: rest => by
    have := jsSplit_ne_nil sep rest
    cases h : jsSplit sep rest with
    | nil => exact absurd h this
    | cons h' t' =>
      simp only [jsSplit, h]
      split <;> simp

theorem jsSplit_head (sep : Nat) : ∀ l : JSStr,
    (jsSplit sep l).headD [] = l.takeWhile (fun u => u != sep)
  | [] => by simp [jsSplit]
  | c :: rest => by
    have ih := jsSplit_head sep rest
    cases h : jsSplit sep rest with
    | nil => exact absurd h (jsSplit_ne_nil sep rest)
    | cons h' t' =>
      rw [h] at ih
      simp only [jsSplit, h]
      by_cases hc : c = sep
      · simp [hc, List.takeWhile_cons]
      · simp only [if_neg hc, List.headD_cons, List.takeWhile_cons]
        rw [if_pos (by simpa using hc)]
        simp only [List.headD_cons] at ih
        rw [ih]

theorem jsSplit_eq_singleton (sep : Nat) : ∀ (l h : JSStr),
    jsSplit sep l = [h] → h = l ∧ sep ∉ l
  | [], h => by
    intro hs
    simp [jsSplit] at hs
    exact ⟨hs, by simp⟩
  | c :: rest, h => by
    intro hs
    cases hsr : jsSplit sep rest with
    | nil => exact absurd hsr (jsSplit_ne_nil sep rest)
    | cons h' t' =>
      simp only [jsSplit, hsr] at hs
      by_cases hc : c = sep
      · rw [if_pos hc] at hs
        simp at hs
      · rw [if_neg hc] at hs
        have ht : t' = [] ∧ h = c :: h' := by
          constructor
          · have := congrArg List.tail hs
            simpa using this
          · have := congrArg (·.headD []) hs
            simpa using this.symm
        obtain ⟨rfl, rfl⟩ := ht
        obtain ⟨rfl, hnot⟩ := jsSplit_eq_singleton sep rest h' hsr
        refine ⟨rfl, ?_⟩
        intro hmem
        rcases List.mem_cons.mp hmem with h | h
        · exact hc h.symm
        · exact hnot h

theorem jsSplit_of_not_mem (sep : Nat) : ∀ l : JSStr, sep ∉ l → jsSplit sep l = [l]
  | [] => fun _ => rfl
  | c :: rest => by
    intro hmem
    have hc : c ≠ sep := fun h => hmem (by simp [h])
    have hrest : sep ∉ rest := fun h => hmem (by simp [h])
    cases hsr : jsSplit sep rest with
    | nil => exact absurd hsr (jsSplit_ne_nil sep rest)
    | cons h' t' =>
      simp only [jsSplit, hsr, if_neg (fun h => hc h)]
      have := jsSplit_of_not_mem sep rest hrest
      rw [hsr] at this
      obtain ⟨rfl, rfl⟩ : h' = rest ∧ t' = [] := by
        constructor
        · have := congrArg (·.headD []) this
          simpa using this
        · have := congrArg List.tail this
          simpa using this
      rfl

theorem takeWhile_append_eq (p : Nat → Bool) : ∀ A B : List Nat,
    (A ++ B).takeWhile p = if A.all p then A ++ B.takeWhile p else A.takeWhile p
  | [], B => by simp
  | a :: A, B => by
    rw [List.cons_append, List.takeWhile_cons, List.takeWhile_cons, List.all_cons]
    cases hpa : p a with
    | false => simp
    | true =>
      simp only [Bool.true_and]
      rw [takeWhile_append_eq p A B]
      by_cases hall : A.all p = true
      · simp [hall]
      · simp [hall]

theorem takeWhile_append_single_false (p : Nat → Bool) (A : List Nat) (x : Nat)
    (hx : p x = false) : (A ++ [x]).takeWhile p = A.takeWhile p := by
  rw [takeWhile_append_eq]
  by_cases hall : A.all p = true
  · simp [hall, List.takeWhile_cons, hx, List.takeWhile_eq_self_iff.mpr (by
      intro a ha; exact (List.all_eq_true.mp hall) a ha)]
  · simp [hall]

theorem takeWhile_append_of_mem_false (p : Nat → Bool) (A B : List Nat)
    (x : Nat) (hmem : x ∈ A) (hx : p x = false) :
    (A ++ B).takeWhile p = A.takeWhile p := by
  rw [takeWhile_append_eq]
  have hall : A.all p = false := by
    cases h : A.all p with
    | false => rfl
    | true => exact absurd ((List.all_eq_true.mp h) x hmem) (by simp [hx])
  simp [hall]

theorem getLastD_irrel (t : List JSStr) (h : t ≠ []) (d₁ d₂ : JSStr) :
    t.getLastD d₁ = t.getLastD d₂ := by
  cases t with
  | nil => exact absurd rfl h
  | cons a t' => rfl

theorem jsSplit_getLast (sep : Nat) : ∀ l : JSStr,
    (jsSplit sep l).getLastD [] = (l.reverse.takeWhile (fun u => u != sep)).reverse
  | [] => by simp [jsSplit]
  | c :: rest => by
    have ih := jsSplit_getLast sep rest
    cases hsr : jsSplit sep rest with
    | nil => exact absurd hsr (jsSplit_ne_nil sep rest)
    | cons h' t' =>
      rw [hsr] at ih
      simp only [jsSplit, hsr, List.reverse_cons]
      by_cases hc : c = sep
      · rw [if_pos hc]
        rw [List.getLastD_cons]
        rw [takeWhile_append_single_false _ _ _ (by simp [hc])]
        rw [← ih]
      · rw [if_neg hc]
        cases t' with
        | nil =>
          obtain ⟨heq, hnot⟩ := jsSplit_eq_singleton sep rest h' hsr
          have hall : (rest.reverse ++ [c]).takeWhile (fun u => u != sep)
              = rest.reverse ++ [c] := by
            rw [List.takeWhile_eq_self_iff]
            intro a ha
            rcases List.mem_append.mp ha with ha | ha
            · have ha' : a ∈ rest := List.mem_reverse.mp ha
              have hane : a ≠ sep := fun h => hnot (h ▸ ha')
              simpa using hane
            · have ha' : a = c := List.mem_singleton.mp ha
              rw [ha']
              simpa using hc
          rw [hall, List.reverse_append, List.reverse_reverse, heq]
          rfl
        | cons t0 t1 =>
          have hsepmem : sep ∈ rest := by
            by_contra hnot
            have h2 := jsSplit_of_not_mem sep rest hnot
            rw [hsr] at h2
            simp at h2
          rw [takeWhile_append_of_mem_false _ _ _ sep
            (List.mem_reverse.mpr hsepmem) (by simp)]
          rw [← ih]
          conv_lhs => rw [List.getLastD_cons]
          conv_rhs => rw [List.getLastD_cons]
          exact getLastD_irrel (t0 :: t1) (by simp) _ _

/-- C4 counterexample: on the payload `k\0a\0b` the extractor's value is the
    last null-delimited field `b`, not the entire remainder `a\0b` after the
    first null byte, refuting the claim as stated. -/
theorem c4_cex_value_is_last_field :
    (chunkKeyValue (jsOf "k\x00a\x00b")).2 = jsOf "b" ∧
    (chunkKeyValue (jsOf "k\x00a\x00b")).2 ≠ afterFirstNull (jsOf "k\x00a\x00b") ∧
    afterFirstNull (jsOf "k\x00a\x00b") = jsOf "a\x00b" := by decide

/-- C4 (amended): every decoded text-chunk payload is split with the key
    being the first null-delimited field and the value being the LAST
    null-delimited field (the whole payload when it contains no null byte,
    the empty string when it ends in a null byte). -/
theorem c4_split_key_value (p : JSStr) :
    chunkKeyValue p = (firstNullField p, afterLastNull p) := by
  unfold chunkKeyValue firstNullField afterLastNull
  refine Prod.ext ?_ ?_
  · exact jsSplit_head 0 p
  · exact jsSplit_getLast 0 p

/- ----------------------- C8/C10/C1: the extractor ----------------------- -/

/-- C8: the extractor is total and never propagates an exception: any MIME
    type other than `image/png` yields "no data" for every buffer (without
    the result depending on the buffer); a buffer too short for the walk's
    guard yields "no data"; a TypeError thrown while rendering is absorbed
    into "no data" by the outer catch; and a well-formed `Comment` chunk
    whose payload fails to parse as JSON (and holds no `masterpiece` marker)
    yields "no data" rather than an error. -/
theorem c8_extractor_total_no_throw :
    (∀ (parseJson : JSStr → Option JValue) (fileType : String) (fileBytes : List Nat),
      fileType ≠ "image/png" → extractAIPrompt parseJson fileType fileBytes = none) ∧
    (∀ (parseJson : JSStr → Option JValue) (fileBytes : List Nat),
      fileBytes.length ≤ 16 → extractAIPrompt parseJson "image/png" fileBytes = none) ∧
    (∀ (parseJson : JSStr → Option JValue) (fileBytes : List Nat) (e : Unit),
      renderAIData (scanChunks parseJson (fileBytes.take 262144) 8
        ⟨initInfo, false⟩).info = .error e →
      extractAIPrompt parseJson "image/png" fileBytes = none) ∧
    extractAIPrompt (fun _ => none) "image/png"
      ([0, 0, 0, 0, 0, 0, 0, 0] ++ [0, 0, 0, 13] ++ [116, 69, 88, 116] ++
        [67, 111, 109, 109, 101, 110, 116, 0, 104, 101, 108, 108, 111] ++
        [0, 0, 0, 0]) = none := by
  refine ⟨?_, ?_, ?_, by decide⟩
  · intro parseJson fileType fileBytes h
    simp [extractAIPrompt, h]
  · intro parseJson fileBytes hlen
    have hst : scanChunks parseJson (fileBytes.take 262144) 8 ⟨initInfo, false⟩
        = ⟨initInfo, false⟩ := by
      rw [scanChunks_eq, if_neg]
      rw [List.length_take]
      omega
    simp [extractAIPrompt, hst]
  · intro parseJson fileBytes e herr
    simp only [extractAIPrompt]
    rw [if_neg (by simp)]
    cases hf : (scanChunks parseJson (fileBytes.take 262144) 8 ⟨initInfo, false⟩).found
    · simp [hf]
    · simp [hf, herr]

/-- C8 witness: a JPEG MIME type and an 3-byte PNG both yield "no data". -/
theorem c8_witness :
    extractAIPrompt (fun _ => none) "image/jpeg" [1, 2, 3] = none ∧
    extractAIPrompt (fun _ => none) "image/png" [1, 2, 3] = none :=
  ⟨c8_extractor_total_no_throw.1 (fun _ => none) "image/jpeg" [1, 2, 3] (by decide),
   c8_extractor_total_no_throw.2.1 (fun _ => none) [1, 2, 3] (by decide)⟩

/-- C10: the extractor inspects only the first 262144 bytes — two files that
    agree on that prefix extract identically — and a PNG whose first chunk's
    declared length jumps past the 262144-byte window yields "no data"
    whatever well-formed text chunks live beyond the window. -/
theorem c10_reads_only_first_262144 :
    (∀ (parseJson : JSStr → Option JValue) (fileType : String) (b₁ b₂ : List Nat),
      b₁.take 262144 = b₂.take 262144 →
      extractAIPrompt parseJson fileType b₁ = extractAIPrompt parseJson fileType b₂) ∧
    (∀ (parseJson : JSStr → Option JValue) (rest : List Nat),
      extractAIPrompt parseJson "image/png"
        ([0, 0, 0, 0, 0, 0, 0, 0, 0, 4, 0, 0, 0, 0, 0, 0] ++ rest) = none) := by
  constructor
  · intro parseJson fileType b₁ b₂ h
    unfold extractAIPrompt
    by_cases hft : fileType ≠ "image/png"
    · rw [if_pos hft, if_pos hft]
    · rw [if_neg hft, if_neg hft, h]
  · intro parseJson rest
    have hscan : scanChunks parseJson
        (0 :: 0 :: 0 :: 0 :: 0 :: 0 :: 0 :: 0 :: 0 :: 4 :: 0 :: 0 :: 0 :: 0 :: 0 :: 0
          :: rest.take 262128) 8 ⟨initInfo, false⟩ = ⟨initInfo, false⟩ := by
      by_cases hr : 8 + 8 <
          (0 :: 0 :: 0 :: 0 :: 0 :: 0 :: 0 :: 0 :: 0 :: 4 :: 0 :: 0 :: 0 :: 0 :: 0 :: 0
            :: rest.take 262128 : List Nat).length
      · rw [scanChunks_eq, if_pos hr]
        have hg : getUint32
            (0 :: 0 :: 0 :: 0 :: 0 :: 0 :: 0 :: 0 :: 0 :: 4 :: 0 :: 0 :: 0 :: 0 :: 0 :: 0
              :: rest.take 262128) 8 = 262144 := by
          have e8 : (0 :: 0 :: 0 :: 0 :: 0 :: 0 :: 0 :: 0 :: 0 :: 4 :: 0 :: 0 :: 0 :: 0
              :: 0 :: 0 :: rest.take 262128).getD 8 0 = 0 := rfl
          have e9 : (0 :: 0 :: 0 :: 0 :: 0 :: 0 :: 0 :: 0 :: 0 :: 4 :: 0 :: 0 :: 0 :: 0
              :: 0 :: 0 :: rest.take 262128).getD (8 + 1) 0 = 4 := rfl
          have e10 : (0 :: 0 :: 0 :: 0 :: 0 :: 0 :: 0 :: 0 :: 0 :: 4 :: 0 :: 0 :: 0 :: 0
              :: 0 :: 0 :: rest.take 262128).getD (8 + 2) 0 = 0 := rfl
          have e11 : (0 :: 0 :: 0 :: 0 :: 0 :: 0 :: 0 :: 0 :: 0 :: 4 :: 0 :: 0 :: 0 :: 0
              :: 0 :: 0 :: rest.take 262128).getD (8 + 3) 0 = 0 := rfl
          unfold getUint32
          rw [e8, e9, e10, e11]
        have hty : decodeBytes (sliceList
            (0 :: 0 :: 0 :: 0 :: 0 :: 0 :: 0 :: 0 :: 0 :: 4 :: 0 :: 0 :: 0 :: 0 :: 0 :: 0
              :: rest.take 262128) (8 + 4) (8 + 8)) = [0, 0, 0, 0] := rfl
        simp only [hg, hty]
        rw [if_neg (by decide)]
        rw [scanChunks_eq, if_neg]
        simp only [List.length_cons, List.length_take]
        omega
      · rw [scanChunks_eq, if_neg hr]
    simp [extractAIPrompt, hscan]

/-- C10 witness: the prefix-dependence part applied at a 3-byte buffer and
    the jump-chunk family instantiated with a concrete tail. -/
theorem c10_witness :
    extractAIPrompt (fun _ => none) "image/png" [1, 2, 3]
      = extractAIPrompt (fun _ => none) "image/png" [1, 2, 3] ∧
    extractAIPrompt (fun _ => none) "image/png"
      ([0, 0, 0, 0, 0, 0, 0, 0, 0, 4, 0, 0, 0, 0, 0, 0] ++ [9, 9, 9]) = none :=
  ⟨c10_reads_only_first_262144.1 (fun _ => none) "image/png" [1, 2, 3] [1, 2, 3] rfl,
   c10_reads_only_first_262144.2 (fun _ => none) [9, 9, 9]⟩

set_option maxRecDepth 7000 in
/-- C1 (refuting evaluation): a PNG whose `Comment` chunk parses to a
    100-character prompt and 33 one-character character prompts passes the
    raw-length budget check (100 + 33 + 0 raw characters fit the available
    budget), so nothing is truncated and `needsSecondMessage` is `false` —
    yet the rendered preview caption, with the fixed per-character markup
    overhead that the budget check ignores, is 1143 code units long, beyond
    the 1024-character budget (`MAX_CAPTION = 1024`) the code itself names. -/
theorem c1_cex_caption_exceeds_budget :
    1024 < ((extractAIPrompt
        (fun _ => some (.jobj [(jsOf "prompt", .jstr (List.replicate 100 97)),
          (jsOf "characterPrompts", .jarr (List.replicate 33 (.jstr [97])))]))
        "image/png"
        ([0, 0, 0, 0, 0, 0, 0, 0] ++ [0, 0, 0, 9] ++ [116, 69, 88, 116] ++
          [67, 111, 109, 109, 101, 110, 116, 0, 120] ++ [0, 0, 0, 0])).map
        (fun d => d.caption.length)).getD 0 ∧
    (extractAIPrompt
        (fun _ => some (.jobj [(jsOf "prompt", .jstr (List.replicate 100 97)),
          (jsOf "characterPrompts", .jarr (List.replicate 33 (.jstr [97])))]))
        "image/png"
        ([0, 0, 0, 0, 0, 0, 0, 0] ++ [0, 0, 0, 9] ++ [116, 69, 88, 116] ++
          [67, 111, 109, 109, 101, 110, 116, 0, 120] ++ [0, 0, 0, 0])).map
        (fun d => d.needsSecondMessage) = some false := by
  decide

/-- C4 witness: the amended characterization applied to the payload
    `Comment\0v`. -/
theorem c4_witness :
    chunkKeyValue (jsOf "Comment\x00v")
      = (firstNullField (jsOf "Comment\x00v"), afterLastNull (jsOf "Comment\x00v")) :=
  c4_split_key_value (jsOf "Comment\x00v")

/-- C5 witness: the amended normalization properties at the folder `x`. -/
theorem c5_witness :
    (directoryOf ['x']).head? ≠ some '/' ∧
      hasDoubleSlash (directoryOf ['x']) = false ∧
      (directoryOf ['x'] = [] ∨
        ((directoryOf ['x']).getLast? = some '/' ∧
          (directoryOf ['x']).dropLast.getLast? ≠ some '/')) :=
  c5_directory_normalized ['x']

end ImgBed
